import Mathlib

/-!
Verification of the Jarvis action-execution safety pipeline.

Shallow embedding of the safety-critical core of the `Jarvis_Win_App`
repository, faithful to the Python sources:

* `Jarvis/core/system/safety.py`        — `SafetyEngine`, `RISK_PATTERNS`
* `Jarvis/core/system/action_router.py` — `ActionRouter`
* `Jarvis/core/orchestrator.py`         — `_TagStreamFilter`
* `Jarvis/core/system/app_registry.py`  — `AppRegistry` (with a model of
  `difflib.get_close_matches`)

Strings are embedded as `List Char`; Python machine floats that only ever
hold exact small ratios (difflib similarity scores) are modelled as `ℚ`;
wall-clock timestamps are explicit parameters.  Regular-expression matching
(`re.search` with `re.IGNORECASE`) is embedded by a small executable
regex engine covering exactly the constructs used by the repository's
pattern tables.
-/

namespace Jarvis

/-! ## Python string primitives -/

/-- Python `str.lower()` restricted to ASCII (all repository patterns,
blocklists and registry keys are ASCII). -/
def pyLowerChar (c : Char) : Char := c.toLower

def pyLower (s : List Char) : List Char := s.map pyLowerChar

/-- The characters Python `str.strip()` removes by default (ASCII part). -/
def pyIsSpace (c : Char) : Bool :=
  c = ' ' || c = '\t' || c = '\n' || c = '\x0d' || c = '\x0b' || c = '\x0c'

def pyStripLeft (s : List Char) : List Char := s.dropWhile pyIsSpace

def pyStrip (s : List Char) : List Char :=
  ((pyStripLeft s).reverse.dropWhile pyIsSpace).reverse

/-- `p` occurs in `l` starting at index `i` (Python `l[i:i+len(p)] == p`). -/
def headEq : List Char → List Char → Bool
  | [], _ => true
  | _ :: _, [] => false
  | p :: ps, c :: cs => p = c && headEq ps cs

/-- Python `l.index(p)` / `p in l` for substrings: index of the first
occurrence of `p` in `l`, if any. -/
def firstIdx (l p : List Char) : Option Nat :=
  match l with
  | [] => if headEq p [] then some 0 else none
  | _ :: t => if headEq p l then some 0 else (firstIdx t p).map (· + 1)

/-- Python `p in l` (substring containment). -/
def containsSub (l p : List Char) : Bool := (firstIdx l p).isSome

/-- `p` is a prefix of `l` (Boolean). -/
def leadsList (p l : List Char) : Bool := headEq p l

/-! ## A regex engine for the repository's pattern tables

`safety.py` evaluates each rule with `re.search(pattern, text, re.IGNORECASE)`.
The engine below covers the constructs those fixed patterns use:
literals, escapes `\s \S \b` and escaped punctuation, character classes
`[a-z]`/`[sSpP]`, `.`, postfix `* + ?`, groups `( )`/`(?: )` and
alternation `|`, all matched case-insensitively. -/

inductive Rx where
  | eps   : Rx
  | anyc  : Rx                              -- `.` (any char except newline)
  | lit   : Char → Rx                       -- literal character
  | cls   : List (Char × Char) → Rx         -- character class (ranges)
  | spc   : Rx                              -- `\s`
  | nspc  : Rx                              -- `\S`
  | wordb : Rx                              -- `\b`
  | seq   : Rx → Rx → Rx
  | alt   : Rx → Rx → Rx
  | star  : Rx → Rx
  deriving Repr, DecidableEq

/-- Regex word character (`\w`): `[a-zA-Z0-9_]`. -/
def isWordChar (c : Char) : Bool :=
  ('a' ≤ c && c ≤ 'z') || ('A' ≤ c && c ≤ 'Z') || ('0' ≤ c && c ≤ '9') || c = '_'

def isWordOpt : Option Char → Bool
  | some c => isWordChar c
  | none => false

/-- Case-insensitive class membership: the classes in the pattern tables are
written with explicit case (`[sS]`) or lowercase ranges (`[a-z]`), so under
`re.IGNORECASE` a char matches if it or its lowercase form is in a range. -/
def clsMatch (ranges : List (Char × Char)) (c : Char) : Bool :=
  ranges.any fun r =>
    (r.1 ≤ c && c ≤ r.2) || (r.1 ≤ pyLowerChar c && pyLowerChar c ≤ r.2)

/-! ### Parser (pattern string → `Rx`), fuelled recursive descent -/

def postfixOps (r : Rx) (cs : List Char) : Rx × List Char :=
  match cs with
  | '*' :: rest => (Rx.star r, rest)
  | '+' :: rest => (Rx.seq r (Rx.star r), rest)
  | '?' :: rest => (Rx.alt r Rx.eps, rest)
  | _ => (r, cs)

def parseClassItems : List Char → Option (List (Char × Char) × List Char)
  | [] => none
  | ']' :: rest => some ([], rest)
  | a :: '-' :: b :: rest =>
      if b = ']' then
        -- `a` then a literal '-' closing the class; not used by our patterns
        some ([(a, a), ('-', '-')], rest)
      else
        (parseClassItems rest).map fun (is, r) => ((a, b) :: is, r)
  | a :: rest =>
      (parseClassItems rest).map fun (is, r) => ((a, a) :: is, r)

/-- Which grammar production to parse (alternation / sequence / atom);
folding the three mutually recursive productions into one fuelled function
keeps the definition kernel-reducible. -/
inductive PKind where
  | palt | pseq | patom
  deriving Repr, DecidableEq

def parseStep : Nat → PKind → List Char → Option (Rx × List Char)
  | 0, _, _ => none
  | fuel + 1, PKind.palt, cs =>
    match parseStep fuel PKind.pseq cs with
    | none => none
    | some (r, rest) =>
      match rest with
      | '|' :: rest2 =>
        match parseStep fuel PKind.palt rest2 with
        | some (r2, rest3) => some (Rx.alt r r2, rest3)
        | none => none
      | _ => some (r, rest)
  | fuel + 1, PKind.pseq, cs =>
    match cs with
    | [] => some (Rx.eps, [])
    | ')' :: _ => some (Rx.eps, cs)
    | '|' :: _ => some (Rx.eps, cs)
    | _ =>
      match parseStep fuel PKind.patom cs with
      | none => none
      | some (r, rest) =>
        match parseStep fuel PKind.pseq rest with
        | some (r2, rest2) => some (Rx.seq r r2, rest2)
        | none => none
  | fuel + 1, PKind.patom, cs =>
    match cs with
    | [] => none
    | '(' :: rest =>
      let body := match rest with
        | '?' :: ':' :: rest2 => rest2
        | _ => rest
      match parseStep fuel PKind.palt body with
      | some (r, ')' :: rest2) => some (postfixOps r rest2)
      | _ => none
    | '[' :: rest =>
      match parseClassItems rest with
      | some (is, rest2) => some (postfixOps (Rx.cls is) rest2)
      | none => none
    | '\\' :: e :: rest =>
      let r := match e with
        | 's' => Rx.spc
        | 'S' => Rx.nspc
        | 'b' => Rx.wordb
        | c => Rx.lit c    -- escaped punctuation (`\|`, `\.`, ...)
      some (postfixOps r rest)
    | '.' :: rest => some (postfixOps Rx.anyc rest)
    | c :: rest => some (postfixOps (Rx.lit c) rest)

def parseRx (pat : List Char) : Option Rx :=
  match parseStep (pat.length * 3 + 6) PKind.palt pat with
  | some (r, []) => some r
  | _ => none

/-! ### Matcher

`rxMatch` returns the list of possible `(last consumed char, remaining
suffix)` states after matching `r`; the previous character is threaded for
`\b`.  Fuelled: `star` recursion insists on progress, so the supplied fuel
(proportional to pattern × text size) is always sufficient in practice, and
a truncation could only under-approximate matching. -/

def rxMatch : Nat → Rx → Option Char → List Char →
    List (Option Char × List Char)
  | 0, _, _, _ => []
  | fuel + 1, r, prev, s =>
      match r with
      | Rx.eps => [(prev, s)]
      | Rx.anyc =>
        match s with
        | [] => []
        | c :: rest => if c = '\n' then [] else [(some c, rest)]
      | Rx.lit ch =>
        match s with
        | [] => []
        | c :: rest => if pyLowerChar c = pyLowerChar ch then [(some c, rest)] else []
      | Rx.cls ranges =>
        match s with
        | [] => []
        | c :: rest => if clsMatch ranges c then [(some c, rest)] else []
      | Rx.spc =>
        match s with
        | [] => []
        | c :: rest => if pyIsSpace c then [(some c, rest)] else []
      | Rx.nspc =>
        match s with
        | [] => []
        | c :: rest => if pyIsSpace c then [] else [(some c, rest)]
      | Rx.wordb =>
        if isWordOpt prev ≠ isWordOpt s.head? then [(prev, s)] else []
      | Rx.seq a b =>
        (rxMatch fuel a prev s).flatMap fun st => rxMatch fuel b st.1 st.2
      | Rx.alt a b => rxMatch fuel a prev s ++ rxMatch fuel b prev s
      | Rx.star a =>
        (prev, s) ::
          ((rxMatch fuel a prev s).filter (fun st => st.2.length < s.length)).flatMap
            fun st => rxMatch fuel (Rx.star a) st.1 st.2

/-- Does `r` match starting exactly at the current position? -/
def rxMatchesHere (fuel : Nat) (r : Rx) (prev : Option Char) (s : List Char) : Bool :=
  !(rxMatch fuel r prev s).isEmpty

/-- Scan every start position (Python `re.search`). -/
def searchFrom (fuel : Nat) (r : Rx) : Option Char → List Char → Bool
  | prev, s =>
    rxMatchesHere fuel r prev s ||
      match s with
      | [] => false
      | c :: rest => searchFrom fuel r (some c) rest

/-- `re.search(pat, text, re.IGNORECASE) is not None`.  All `re.search`
call sites in `safety.py` pass `re.IGNORECASE`. -/
def reSearch (pat : List Char) (text : List Char) : Bool :=
  match parseRx pat with
  | some r => searchFrom ((pat.length + 2) * (text.length + 2) + 8) r none text
  | none => false

/-! ## Data model (`Jarvis/core/system/actions.py`) -/

/-- `ActionType(str, Enum)`. -/
inductive ActionType where
  | launchApp | openUrl | shellCommand | fileRead | fileWrite | fileList
  | systemInfo | notification
  deriving Repr, DecidableEq

def ActionType.value : ActionType → String
  | launchApp => "launch_app"
  | openUrl => "open_url"
  | shellCommand => "shell_command"
  | fileRead => "file_read"
  | fileWrite => "file_write"
  | fileList => "file_list"
  | systemInfo => "system_info"
  | notification => "notification"

/-- `RiskLevel(str, Enum)`. -/
inductive RiskLevel where
  | low | medium | high | critical
  deriving Repr, DecidableEq

def RiskLevel.value : RiskLevel → String
  | low => "low"
  | medium => "medium"
  | high => "high"
  | critical => "critical"

/-- `RiskLevel(s)` construction from an enum value string. -/
def riskOfString (s : String) : Option RiskLevel :=
  if s = "low" then some RiskLevel.low
  else if s = "medium" then some RiskLevel.medium
  else if s = "high" then some RiskLevel.high
  else if s = "critical" then some RiskLevel.critical
  else none

/-- `ActionResult` (risk_level kept as its enum-value string, as in the
Python dataclass where `risk_level : str = "low"`). -/
structure ActionResult where
  success : Bool
  message : String
  output : String := ""
  error : String := ""
  actionType : String := ""
  riskLevel : String := "low"
  deriving Repr, DecidableEq

/-- `ShellResult(ActionResult)`. -/
structure ShellResult where
  success : Bool
  message : String
  output : String := ""
  error : String := ""
  actionType : String := ""
  riskLevel : String := "low"
  returnCode : Int := -1
  stdout : String := ""
  stderr : String := ""
  timedOut : Bool := false
  command : String := ""
  deriving Repr, DecidableEq

/-- Upcast `ShellResult → ActionResult` (in Python, plain inheritance). -/
def ShellResult.toAction (r : ShellResult) : ActionResult :=
  { success := r.success, message := r.message, output := r.output,
    error := r.error, actionType := r.actionType, riskLevel := r.riskLevel }

/-- `ActionRequest`. -/
structure ActionRequest where
  actionType : ActionType
  target : String
  args : List String := []
  rawText : String := ""
  deriving Repr, DecidableEq

/-! ## Safety Engine (`Jarvis/core/system/safety.py`) -/

/-- `RiskPattern` — a regex pattern that maps to a risk level. -/
structure RiskPattern where
  pattern : String
  risk : RiskLevel
  description : String
  deriving Repr, DecidableEq

/-- `RISK_PATTERNS`, verbatim from `safety.py`. -/
def RISK_PATTERNS : List RiskPattern := [
  -- CRITICAL — data destruction, system-level changes
  ⟨"format\\s+[a-z]:", RiskLevel.critical, "Disk format"⟩,
  ⟨"diskpart", RiskLevel.critical, "Disk partitioning"⟩,
  ⟨"bcdedit", RiskLevel.critical, "Boot configuration edit"⟩,
  ⟨"cipher\\s+/w:", RiskLevel.critical, "Secure disk wipe"⟩,
  ⟨"sfc\\s+/scannow", RiskLevel.high, "System file checker"⟩,
  -- HIGH — deletes files or modifies registry
  ⟨"remove-item\\s+.*-recurse", RiskLevel.high, "Recursive file deletion"⟩,
  ⟨"rm\\s+-rf", RiskLevel.high, "Recursive force delete"⟩,
  ⟨"del\\s+/[sS]", RiskLevel.high, "Recursive delete"⟩,
  ⟨"reg\\s+delete", RiskLevel.high, "Registry deletion"⟩,
  ⟨"reg\\s+add", RiskLevel.high, "Registry modification"⟩,
  ⟨"shutdown\\s+/[sSpP]", RiskLevel.high, "System shutdown/restart"⟩,
  ⟨"stop-service", RiskLevel.high, "Service stop"⟩,
  ⟨"Set-ExecutionPolicy", RiskLevel.high, "Execution policy change"⟩,
  ⟨"netsh\\s+advfirewall", RiskLevel.high, "Firewall modification"⟩,
  -- MEDIUM — network, process control, environment changes
  ⟨"(?:invoke-webrequest|curl|wget).*\\|\\s*(?:iex|invoke-expression)",
    RiskLevel.critical, "Web request piped to execute"⟩,
  ⟨"invoke-webrequest|curl|wget", RiskLevel.medium, "Network download"⟩,
  ⟨"Invoke-Expression|iex", RiskLevel.high, "Dynamic code execution"⟩,
  ⟨"-(enc|encodedcommand)\\b", RiskLevel.high, "Encoded PowerShell command"⟩,
  ⟨"wsl\\b", RiskLevel.high, "WSL Subsystem execution"⟩,
  ⟨"powershell.*-ep\\s+bypass", RiskLevel.high, "PowerShell execution policy bypass"⟩,
  ⟨"(certutil|bitsadmin|mshta|wmic|cscript|wscript)\\b", RiskLevel.high,
    "Windows LOLBin execution"⟩,
  ⟨"stop-process|taskkill", RiskLevel.medium, "Process termination"⟩,
  ⟨"set-itemproperty", RiskLevel.medium, "Property modification"⟩,
  ⟨"new-service", RiskLevel.medium, "Service creation"⟩,
  ⟨"runas\\s*/", RiskLevel.high, "Privilege escalation"⟩,
  ⟨"net\\s+user\\s+\\S+\\s+\\S+\\s*/add", RiskLevel.high, "User account creation"⟩]

/-- `SafetyEngine._risk_rank`. -/
def riskRank : RiskLevel → Nat
  | RiskLevel.low => 0
  | RiskLevel.medium => 1
  | RiskLevel.high => 2
  | RiskLevel.critical => 3

/-- One record of `SafetyEngine._audit_log`.  The wall-clock `timestamp`
field is environment input with no bearing on any claim and is omitted. -/
structure AuditEntry where
  actionType : String
  target : String
  risk : RiskLevel
  outcome : String
  fromLLM : Bool
  deriving Repr, DecidableEq

/-- Mutable state of one `SafetyEngine` instance.  Rate-limiter timestamps
(`time.time()` values) are modelled as exact rationals. -/
structure SafetyState where
  blocklist : List String := []
  allowlist : List String := []
  auditLog : List AuditEntry := []
  timestamps : List ℚ := []
  deriving Repr, DecidableEq

/-- `self._max_audit = 200`. -/
def maxAudit : Nat := 200

/-- `SafetyEngine.assess_command`. -/
def assessCommand (s : SafetyState) (command : String) : RiskLevel × String :=
  let cmdLower := pyLower (pyStrip command.data)
  -- Check allowlist first
  match s.allowlist.find? (fun p => reSearch p.data cmdLower) with
  | some _ => (RiskLevel.low, "Allowlisted")
  | none =>
  -- Check blocklist
  match s.blocklist.find? (fun b => containsSub cmdLower (pyLower b.data)) with
  | some b => (RiskLevel.critical, "Blocklisted: " ++ b)
  | none =>
  -- Check risk patterns
  RISK_PATTERNS.foldl
    (fun acc rp =>
      if reSearch rp.pattern.data command.data then
        if riskRank rp.risk > riskRank acc.1 then (rp.risk, rp.description) else acc
      else acc)
    (RiskLevel.low, "No risk patterns matched")

/-- `SafetyEngine.is_dangerous`. -/
def isDangerous (s : SafetyState) (command : String) : Bool :=
  let risk := (assessCommand s command).1
  risk = RiskLevel.high || risk = RiskLevel.critical

/-- `SafetyEngine.should_block` (mutates the timestamp window); `now` is the
`time.time()` value observed by the call. -/
def shouldBlock (s : SafetyState) (now : ℚ) (command : String) :
    (Bool × String) × SafetyState :=
  let ts := s.timestamps.filter (fun t => now - t < 10)
  if ts.length ≥ 5 then
    ((true, "Blocked: Rate limit exceeded (too many commands in quick succession)"),
     { s with timestamps := ts })
  else
    let s' := { s with timestamps := ts ++ [now] }
    let rd := assessCommand s' command
    if rd.1 = RiskLevel.critical then
      ((true, "Blocked (CRITICAL): " ++ rd.2), s')
    else
      ((false, rd.2), s')

/-- `SafetyEngine.should_confirm`. -/
def shouldConfirm (s : SafetyState) (command : String) : Bool × String :=
  let rd := assessCommand s command
  if rd.1 = RiskLevel.high ∨ rd.1 = RiskLevel.critical then
    (true, "Requires confirmation (" ++ rd.1.value ++ "): " ++ rd.2)
  else
    (false, rd.2)

/-- `SafetyEngine.assess_action` — static per-ActionType default. -/
def assessAction : ActionType → RiskLevel
  | ActionType.launchApp => RiskLevel.low
  | ActionType.openUrl => RiskLevel.low
  | ActionType.shellCommand => RiskLevel.medium   -- further assessed
  | ActionType.fileRead => RiskLevel.low
  | ActionType.fileWrite => RiskLevel.medium
  | ActionType.fileList => RiskLevel.low
  | ActionType.systemInfo => RiskLevel.low
  | ActionType.notification => RiskLevel.low

/-- The in-memory ring-buffer append of `SafetyEngine.log_action`
(`self._audit_log.append(entry)` then keep the last `_max_audit`).
Durable-file appends are environment I/O whose failures are swallowed and
never affect this in-memory trail; they are not modelled. -/
def ringAppend (log : List AuditEntry) (e : AuditEntry) : List AuditEntry :=
  let l := log ++ [e]
  if l.length > maxAudit then l.drop (l.length - maxAudit) else l

/-- `SafetyEngine.log_action` restricted to its in-memory effect. -/
def logAction (s : SafetyState) (e : AuditEntry) : SafetyState :=
  { s with auditLog := ringAppend s.auditLog e }

/-- `SafetyEngine.get_audit_log` — Python `self._audit_log[-limit:]`
(`limit = 0` yields the whole list, a Python slicing corner). -/
def getAuditLog (s : SafetyState) (limit : Nat := 20) : List AuditEntry :=
  if limit = 0 then s.auditLog
  else s.auditLog.drop (s.auditLog.length - limit)

/-! ## Action Router (`Jarvis/core/system/action_router.py`)

The `SystemBackend` is external (one implementation per OS); it is
modelled as an oracle record.  Each router entry point additionally
returns the ordered list of backend invocations it performed, so that
"the backend is never called" is a statement about the embedding. -/

/-- Oracle for the `SystemBackend` methods the router dispatches to. -/
structure Backend where
  runShell : String → Int → Option String → Bool → ShellResult
  launchApp : String → List String → ActionResult
  openUrl : String → ActionResult
  getSystemInfo : Except String (List (String × String))
  notify : String → String → ActionResult

/-- One recorded backend invocation. -/
inductive BackendCall where
  | runShell (command : String)
  | launchApp (name : String) (args : List String)
  | openUrl (url : String)
  | getSystemInfo
  | notify (title message : String)
  deriving Repr, DecidableEq

/-- State of one `ActionRouter` (its owned `SafetyEngine` plus the
registered confirmation callback). -/
structure Router where
  safety : SafetyState
  confirmCallback : Option (String → Bool) := none

/-- `ActionRouter._request_confirmation` — deny if no callback registered. -/
def requestConfirmation (r : Router) (command : String) : Bool :=
  match r.confirmCallback with
  | some f => f command
  | none => false    -- Safe default: deny if no UI is available

/-- `ActionRouter.execute_shell` — the unified safety gate.  Returns the
result, the updated router state, and the backend calls performed. -/
def executeShell (backend : Backend) (r : Router) (command : String)
    (fromLLM : Bool := false) (timeout : Int := 30) (cwd : Option String := none) :
    ShellResult × Router × List BackendCall :=
  let rd := assessCommand r.safety command
  -- 1. Block CRITICAL commands outright
  if rd.1 = RiskLevel.critical then
    ({ success := false,
       message := "Blocked dangerous command: `" ++ command ++ "`. " ++ rd.2,
       error := rd.2, command := command,
       actionType := ActionType.shellCommand.value,
       riskLevel := RiskLevel.critical.value },
     { r with safety := logAction r.safety
                  ⟨ActionType.shellCommand.value, command, RiskLevel.critical,
                   "blocked", fromLLM⟩ },
     [])
  -- 2. Require confirmation for HIGH-risk commands
  else if rd.1 = RiskLevel.high ∧ ¬ requestConfirmation r command then
    ({ success := false,
       message := "Command cancelled (requires confirmation): `" ++ command ++ "`",
       error := "User denied: " ++ rd.2, command := command,
       actionType := ActionType.shellCommand.value,
       riskLevel := RiskLevel.high.value },
     { r with safety := logAction r.safety
                  ⟨ActionType.shellCommand.value, command, RiskLevel.high,
                   "denied", fromLLM⟩ },
     [])
  -- 3. Execute, then audit
  else
    let res := backend.runShell command timeout cwd fromLLM
    (res,
     { r with safety := logAction r.safety
                  ⟨ActionType.shellCommand.value, String.mk (command.data.take 80), rd.1,
                   if res.success then "success" else "failure", fromLLM⟩ },
     [BackendCall.runShell command])

/-- `ActionRouter._handle_system_info`. -/
def handleSystemInfo (backend : Backend) : ActionResult :=
  match backend.getSystemInfo with
  | Except.ok info =>
    let lines := info.map (fun kv => "  " ++ kv.1 ++ ": " ++ kv.2)
    let output := "System Information:\n" ++ String.intercalate "\n" lines
    { success := true, message := output, output := output,
      actionType := ActionType.systemInfo.value, riskLevel := RiskLevel.low.value }
  | Except.error e =>
    { success := false, message := "Error getting system info: " ++ e,
      error := e, actionType := ActionType.systemInfo.value }

/-- The handler table of `ActionRouter.execute_action` (its `handlers`
dict has no entry for the `FILE_*` action types). -/
def dispatchHandler (backend : Backend) (r : Router) (req : ActionRequest) :
    Option (ActionResult × Router × List BackendCall) :=
  match req.actionType with
  | ActionType.launchApp =>
    some (backend.launchApp req.target req.args, r,
          [BackendCall.launchApp req.target req.args])
  | ActionType.openUrl =>
    some (backend.openUrl req.target, r, [BackendCall.openUrl req.target])
  | ActionType.shellCommand =>
    -- `_handle_shell` re-enters the unified execute_shell gate
    let out := executeShell backend r req.target true 30 none
    some (out.1.toAction, out.2.1, out.2.2)
  | ActionType.systemInfo =>
    some (handleSystemInfo backend, r, [BackendCall.getSystemInfo])
  | ActionType.notification =>
    let title := req.target
    let message := req.args.headD ""
    some (backend.notify title message, r, [BackendCall.notify title message])
  | _ => none

/-- The audit risk used by `execute_action`:
`RiskLevel(result.risk_level) if result.risk_level else base_risk`.
An empty string is falsy, so it falls back to the assessed default; every
`risk_level` the repository produces is a valid enum value (an invalid
nonempty string would raise `ValueError` in Python and is outside the
embedding's domain, also mapped to the default here). -/
def effectiveRisk (resultRisk : String) (baseRisk : RiskLevel) : RiskLevel :=
  match riskOfString resultRisk with
  | some rl => rl
  | none => baseRisk

/-- `ActionRouter.execute_action`. -/
def executeAction (backend : Backend) (r : Router) (req : ActionRequest) :
    ActionResult × Router × List BackendCall :=
  let baseRisk := assessAction req.actionType
  match dispatchHandler backend r req with
  | none =>
    ({ success := false,
       message := "Unsupported action type: " ++ req.actionType.value,
       error := "No handler" }, r, [])
  | some (result, r', calls) =>
    (result,
     { r' with safety := logAction r'.safety
                   ⟨req.actionType.value, req.target,
                    effectiveRisk result.riskLevel baseRisk,
                    if result.success then "success" else "failure", true⟩ },
     calls)

/-! ## Tag Stream Filter (`Jarvis/core/orchestrator.py`, `_TagStreamFilter`) -/

/-- `_TagStreamFilter._TAGS`. -/
def TAGS : List (String × String) :=
  [("[SHELL]", "[/SHELL]"), ("[ACTION]", "[/ACTION]")]

/-- State of one `_TagStreamFilter`.  `tag?` packages `_in_tag`,
`_tag_type` and `_close_tag` (which the Python object keeps in sync:
`_in_tag` is true exactly when the other two are set). -/
structure FilterState where
  buf : List Char := []                      -- `_buf`
  tag? : Option (String × String) := none    -- `(_tag_type, _close_tag)`
  tagBuf : List Char := []                   -- `_tag_buf`
  shellCommands : List (List Char) := []     -- `shell_commands`
  actionCommands : List (List Char) := []    -- `action_commands`
  deriving Repr, DecidableEq

def initFilter : FilterState := {}

/-- One iteration of the character loop in `_TagStreamFilter.feed`:
returns the display characters emitted for this character and the new
state. -/
def feedChar (st : FilterState) (c : Char) : List Char × FilterState :=
  match st.tag? with
  | none =>
    let buf := st.buf ++ [c]
    -- Check for any opening tag
    match TAGS.find? (fun t => containsSub buf t.1.data) with
    | some t =>
      -- `idx = self._buf.index(open_tag)`; the find? guard makes it defined
      let idx := (firstIdx buf t.1.data).getD 0
      (buf.take idx, { st with buf := [], tag? := some t })
    | none =>
      -- Check if buffer could still be a partial tag prefix
      if TAGS.any (fun t => leadsList buf t.1.data) then
        ([], { st with buf := buf })
      else
        (buf, { st with buf := [] })
  | some t =>
    let tagBuf := st.tagBuf ++ [c]
    match firstIdx tagBuf t.2.data with
    | some idx =>
      let content := pyStrip (tagBuf.take idx)
      let st' := { st with tagBuf := tagBuf.drop (idx + t.2.data.length),
                           tag? := none }
      if content ≠ [] then
        if t.1 = "[SHELL]" then
          ([], { st' with shellCommands := st'.shellCommands ++ [content] })
        else if t.1 = "[ACTION]" then
          ([], { st' with actionCommands := st'.actionCommands ++ [content] })
        else ([], st')
      else ([], st')
    | none => ([], { st with tagBuf := tagBuf })

/-- `_TagStreamFilter.feed` over an already exploded fragment. -/
def feedList (st : FilterState) (cs : List Char) : List Char × FilterState :=
  cs.foldl (fun acc c =>
    let out := feedChar acc.2 c
    (acc.1 ++ out.1, out.2)) ([], st)

/-- `_TagStreamFilter.flush`. -/
def flushOut (st : FilterState) : List Char × FilterState :=
  match st.tag? with
  | none => (st.buf, { st with buf := [] })
  | some _ => ([], st)

/-- Feed a whole sequence of fragments through one filter instance and
flush at end of stream; returns the concatenated display output and the
final state (with its extraction lists). -/
def streamOut (frags : List (List Char)) : List Char × FilterState :=
  let r := frags.foldl (fun acc f =>
    let o := feedList acc.2 f
    (acc.1 ++ o.1, o.2)) (([] : List Char), initFilter)
  let fl := flushOut r.2
  (r.1 ++ fl.1, fl.2)

/-! ## `difflib` similarity (for `AppRegistry.resolve`)

`app_registry.py` resolves fuzzy matches with
`difflib.get_close_matches(q, aliases, n=1, cutoff=0.7)`.  The model below
follows CPython's `difflib.SequenceMatcher` with no junk: the queries fed
to it are far shorter than the 200-character autojunk threshold, so the
junk machinery is inert.  Ratios are exact integer fractions standing for
the Python floats, compared by cross-multiplication. -/

/-- `j2len.get(key, 0)` on an association list. -/
def alGet (l : List (Nat × Nat)) (k : Nat) : Nat :=
  match l.find? (fun p => p.1 = k) with
  | some p => p.2
  | none => 0

/-- `SequenceMatcher.find_longest_match(alo, ahi, blo, bhi)` (no junk):
returns `(besti, bestj, bestsize)`. -/
def findLongestMatch (a b : List Char) (alo ahi blo bhi : Nat) :
    Nat × Nat × Nat :=
  let bj := fun c => (List.range b.length).filter (fun j => b.get? j = some c)
  let res := ((List.range (ahi - alo)).map (· + alo)).foldl
    (fun (st : List (Nat × Nat) × Nat × Nat × Nat) i =>
      let j2len := st.1
      let js := (bj (a.getD i ' ')).filter (fun j => blo ≤ j && j < bhi)
      js.foldl
        (fun (acc : List (Nat × Nat) × Nat × Nat × Nat) j =>
          -- Python `j2len.get(j-1, 0)`; for `j = 0` the key is -1, absent
          let k := (if j = 0 then 0 else alGet j2len (j - 1)) + 1
          let nj := acc.1 ++ [(j, k)]
          if k > acc.2.2.2 then (nj, i + 1 - k, j + 1 - k, k)
          else (nj, acc.2))
        ([], st.2))
    ([], alo, blo, 0)
  res.2

/-- Total size of the matching blocks of `get_matching_blocks` (the only
datum `ratio` needs); the queue-based decomposition is expressed as the
equivalent recursion on the first longest match.  Fuelled; any fuel
of at least `ahi + bhi` suffices. -/
def matchingTotal (a b : List Char) : Nat → Nat → Nat → Nat → Nat → Nat
  | 0, _, _, _, _ => 0
  | fuel + 1, alo, ahi, blo, bhi =>
    let m := findLongestMatch a b alo ahi blo bhi
    if m.2.2 = 0 then 0
    else
      matchingTotal a b fuel alo m.1 blo m.2.1 + m.2.2 +
        matchingTotal a b fuel (m.1 + m.2.2) ahi (m.2.1 + m.2.2) bhi

/-- A difflib similarity score `2*matches / length` as an exact fraction
`(numerator, denominator)`; `_calculate_ratio` returns `1.0` when the
total length is zero, represented here by the fraction `(1, 1)`.  The
Python floats are modelled by these exact fractions, compared by
cross-multiplication. -/
def calcRatio (m length : Nat) : Nat × Nat :=
  if length = 0 then (1, 1) else (2 * m, length)

/-- Fraction comparison `p ≥ q` by cross-multiplication. -/
def fracGe (p q : Nat × Nat) : Bool := p.1 * q.2 ≥ q.1 * p.2

/-- Fraction comparison `p < q` by cross-multiplication. -/
def fracLt (p q : Nat × Nat) : Bool := p.1 * q.2 < q.1 * p.2

/-- Fraction equality `p = q` by cross-multiplication. -/
def fracEq (p q : Nat × Nat) : Bool := p.1 * q.2 = q.1 * p.2

/-- `SequenceMatcher.ratio()` for `a` against `b`. -/
def dlRatio (a b : List Char) : Nat × Nat :=
  calcRatio (matchingTotal a b (a.length + b.length + 2) 0 a.length 0 b.length)
    (a.length + b.length)

/-- `SequenceMatcher.quick_ratio()`: its availability-decrement loop counts
`Σ_c min(count_a c, count_b c)`. -/
def dlQuickRatio (a b : List Char) : Nat × Nat :=
  calcRatio (a.dedup.foldl (fun acc c => acc + min (a.count c) (b.count c)) 0)
    (a.length + b.length)

/-- `SequenceMatcher.real_quick_ratio()`. -/
def dlRealQuickRatio (a b : List Char) : Nat × Nat :=
  calcRatio (min a.length b.length) (a.length + b.length)

/-- Python string `<` (lexicographic by code point). -/
def strLt : List Char → List Char → Bool
  | [], [] => false
  | [], _ :: _ => true
  | _ :: _, [] => false
  | a :: as, b :: bs => a < b || (a = b && strLt as bs)

/-- `difflib.get_close_matches(word, possibilities, n=1, cutoff)`:
keep the possibilities passing all three cutoff filters and return the
maximum of `(score, string)` under Python tuple order (what
`heapq.nlargest(1, result)` selects), if any. -/
def getCloseMatches1 (word : List Char) (possibilities : List (List Char))
    (cutoff : Nat × Nat) : Option (List Char) :=
  let scored := possibilities.filterMap (fun x =>
    if fracGe (dlRealQuickRatio x word) cutoff ∧
        fracGe (dlQuickRatio x word) cutoff ∧
        fracGe (dlRatio x word) cutoff then
      some (dlRatio x word, x)
    else none)
  (scored.foldl
    (fun best p =>
      match best with
      | none => some p
      | some q =>
        if fracLt q.1 p.1 ∨ (fracEq q.1 p.1 ∧ strLt q.2 p.2) then some p
        else some q)
    none).map (·.2)

/-! ## App Registry (`Jarvis/core/system/app_registry.py`) -/

/-- `AppEntry`. -/
structure AppEntry where
  name : String
  displayName : String
  aliases : List String
  launchMethod : String
  launchTarget : String
  processName : Option String
  category : String
  deriving Repr, DecidableEq

/-- One JSON object of the external `app_registry.json` config (fields with
their `entry.get(...)` defaults applied by `_load`). -/
structure AppEntryData where
  displayName : Option String := none
  aliases : List String := []
  launchMethod : String := "exe"
  launchTarget : String := ""
  processName : Option String := none
  category : String := "other"
  deriving Repr, DecidableEq

/-- Python dict assignment `m[k] = v` on an insertion-ordered map
(overwriting keeps the original position). -/
def dictInsert (m : List (String × String)) (k v : String) :
    List (String × String) :=
  if m.any (fun p => p.1 = k) then
    m.map (fun p => if p.1 = k then (k, v) else p)
  else m ++ [(k, v)]

def dictInsertEntry (m : List (String × AppEntry)) (k : String) (v : AppEntry) :
    List (String × AppEntry) :=
  if m.any (fun p => p.1 = k) then
    m.map (fun p => if p.1 = k then (k, v) else p)
  else m ++ [(k, v)]

def dictGet (m : List (String × String)) (k : String) : Option String :=
  (m.find? (fun p => p.1 = k)).map (·.2)

def dictGetEntry (m : List (String × AppEntry)) (k : String) : Option AppEntry :=
  (m.find? (fun p => p.1 = k)).map (·.2)

/-- `AppRegistry` state: `_apps` and `_alias_map`, both insertion-ordered. -/
structure AppRegistry where
  apps : List (String × AppEntry) := []
  aliasMap : List (String × String) := []
  deriving Repr, DecidableEq

def pyLowerStr (s : String) : String := String.mk (pyLower s.data)

def pyStripLowerStr (s : String) : String := String.mk (pyLower (pyStrip s.data))

/-- `AppRegistry._load` over already-parsed JSON data (the file read and
JSON decoding are environment I/O).  Note that alias-map assignment
silently overwrites any previous binding of the same lower-cased key. -/
def loadRegistry (data : List (String × AppEntryData)) : AppRegistry :=
  data.foldl
    (fun reg kv =>
      let key := kv.1
      let d := kv.2
      let app : AppEntry :=
        { name := key, displayName := d.displayName.getD key,
          aliases := d.aliases, launchMethod := d.launchMethod,
          launchTarget := d.launchTarget, processName := d.processName,
          category := d.category }
      let reg1 : AppRegistry :=
        { apps := dictInsertEntry reg.apps key app,
          aliasMap := dictInsert reg.aliasMap (pyLowerStr key) key }
      { reg1 with
        aliasMap := d.aliases.foldl
          (fun m al => dictInsert m (pyLowerStr al) key) reg1.aliasMap })
    {}

/-- `AppRegistry.resolve`. -/
def resolve (reg : AppRegistry) (query : String) : Option AppEntry :=
  let q := pyStripLowerStr query
  -- 1. Exact alias match
  match dictGet reg.aliasMap q with
  | some canonical => dictGetEntry reg.apps canonical
  | none =>
    -- 2. Fuzzy match against all aliases
    let allAliases := reg.aliasMap.map (·.1)
    -- cutoff 0.7 (the float literal is the exact fraction 7/10 here)
    match getCloseMatches1 q.data (allAliases.map (·.data)) (7, 10) with
    | some best =>
      match dictGet reg.aliasMap (String.mk best) with
      | some canonical => dictGetEntry reg.apps canonical
      | none => none
    | none => none

/-- `resolve` with step 2 cut off: what the lookup returns when the fuzzy
matcher is never consulted. -/
def resolveExactOnly (reg : AppRegistry) (query : String) : Option AppEntry :=
  match dictGet reg.aliasMap (pyStripLowerStr query) with
  | some canonical => dictGetEntry reg.apps canonical
  | none => none


/-! ## Reference definitions and concrete instances used by the theorems -/

/-- First entry of the list achieving the maximum risk rank (the natural
reading of "the highest-ranked matching entry of the ordered rule table"). -/
def maxRankFirst (l : List RiskPattern) : Option RiskPattern :=
  l.foldl
    (fun acc rp =>
      match acc with
      | none => some rp
      | some best => if riskRank rp.risk > riskRank best.risk then some rp else acc)
    none

/-- Reference definition of the classifier, following the spec's wording:
allowlist match short-circuits to `(Low, "Allowlisted")`; otherwise a
blocklisted case-insensitive substring gives Critical; otherwise the
highest-ranked matching entry of the ordered risk-rule table, or the Low
default when no rule matches.  (The spec leaves the blocklist reason text
unspecified; the code's text is used so that the two sides are comparable
as pairs.) -/
def specAssess (s : SafetyState) (command : String) : RiskLevel × String :=
  let cmdLower := pyLower (pyStrip command.data)
  if s.allowlist.any (fun p => reSearch p.data cmdLower) then
    (RiskLevel.low, "Allowlisted")
  else
    match s.blocklist.find? (fun b => containsSub cmdLower (pyLower b.data)) with
    | some b => (RiskLevel.critical, "Blocklisted: " ++ b)
    | none =>
      match maxRankFirst (RISK_PATTERNS.filter
          (fun rp => reSearch rp.pattern.data command.data)) with
      | some rp => (rp.risk, rp.description)
      | none => (RiskLevel.low, "No risk patterns matched")

/-- A concrete backend oracle whose operations all succeed (used to
instantiate theorems at concrete inputs). -/
def okBackend : Backend :=
  { runShell := fun cmd _ _ _ => { success := true, message := "ok", command := cmd },
    launchApp := fun _ _ => { success := true, message := "ok" },
    openUrl := fun _ => { success := true, message := "ok" },
    getSystemInfo := Except.ok [("os", "Windows")],
    notify := fun _ _ => { success := true, message := "ok" } }

/-- Run `execute_shell` `n` times in sequence on the same router (as a
burst of commands would); returns the final router, all backend calls,
and the per-call success flags. -/
def repeatShell (backend : Backend) (cmd : String) : Nat → Router →
    Router × List BackendCall × List Bool
  | 0, r => (r, [], [])
  | n + 1, r =>
    let out := executeShell backend r cmd false 30 none
    let rest := repeatShell backend cmd n out.2.1
    (rest.1, out.2.2 ++ rest.2.1, out.1.success :: rest.2.2)

/-- A well-formable stream item: plain prose or one complete tag span. -/
inductive StreamItem where
  | prose (s : List Char)
  | span (tag : String × String) (body : List Char)
  deriving Repr, DecidableEq

/-- The text of one stream item on the wire. -/
def renderItem : StreamItem → List Char
  | StreamItem.prose s => s
  | StreamItem.span t body => t.1.data ++ body ++ t.2.data

/-- The whole stream text of a list of items. -/
def renderAll (items : List StreamItem) : List Char :=
  (items.map renderItem).flatten

/-- Well-formedness of a stream item: prose carries no `[` (so it can
never be mistaken for a marker), and a span's closing marker occurs in
`body ++ close` exactly once, at the very end (the body neither contains
nor straddles into a premature closing marker). -/
def itemOK : StreamItem → Bool
  | StreamItem.prose s => s.all (fun c => c ≠ '[')
  | StreamItem.span t body =>
      decide (t ∈ TAGS) &&
        decide (firstIdx (body ++ t.2.data) t.2.data = some body.length)

/-- Expected display output: the prose, with all tag spans removed. -/
def expDisplay (items : List StreamItem) : List Char :=
  (items.map (fun it => match it with
    | StreamItem.prose s => s
    | StreamItem.span _ _ => [])).flatten

/-- Expected shell extractions: stripped non-empty `[SHELL]` bodies in
order of appearance. -/
def expShell (items : List StreamItem) : List (List Char) :=
  items.filterMap (fun it => match it with
    | StreamItem.span t body =>
        if t.1 = "[SHELL]" ∧ pyStrip body ≠ [] then some (pyStrip body) else none
    | StreamItem.prose _ => none)

/-- Expected action extractions: stripped non-empty `[ACTION]` bodies in
order of appearance. -/
def expAction (items : List StreamItem) : List (List Char) :=
  items.filterMap (fun it => match it with
    | StreamItem.span t body =>
        if t.1 = "[ACTION]" ∧ pyStrip body ≠ [] then some (pyStrip body) else none
    | StreamItem.prose _ => none)

/-- The four complete markers. -/
def allMarkers : List (List Char) :=
  ["[SHELL]".data, "[/SHELL]".data, "[ACTION]".data, "[/ACTION]".data]

/-- A sample external registry config (the JSON catalog is external
config; only the resolution algorithm over it is part of the core). -/
def sampleRegistryData : List (String × AppEntryData) := [
  ("chrome", { displayName := some "Google Chrome",
               aliases := ["chrome", "google chrome", "browser"],
               launchTarget := "chrome.exe", category := "browser" }),
  ("spotify", { displayName := some "Spotify",
                aliases := ["spotify", "music"],
                launchTarget := "spotify.exe", category := "media" })]

def sampleRegistry : AppRegistry := loadRegistry sampleRegistryData

/-- Registry config in which two different apps both register the alias
`"shared"`. -/
def collideData : List (String × AppEntryData) := [
  ("app1", { aliases := ["shared"], launchTarget := "one.exe" }),
  ("app2", { aliases := ["shared"], launchTarget := "two.exe" })]

end Jarvis

namespace Jarvis

/-! ## Theorems -/

/-- C2: a command that `SafetyEngine.assess_command` classifies as Critical
is rejected by `ActionRouter.execute_shell` with a failure result, the
backend is never invoked, and exactly one audit entry with outcome
"blocked" is appended. -/
theorem critical_shell_blocked (backend : Backend) (r : Router)
    (command : String) (fromLLM : Bool) (timeout : Int) (cwd : Option String)
    (d : String)
    (h : assessCommand r.safety command = (RiskLevel.critical, d)) :
    (executeShell backend r command fromLLM timeout cwd).1.success = false ∧
    (executeShell backend r command fromLLM timeout cwd).2.2 = [] ∧
    (executeShell backend r command fromLLM timeout cwd).2.1.safety.auditLog =
      ringAppend r.safety.auditLog
        ⟨ActionType.shellCommand.value, command, RiskLevel.critical,
         "blocked", fromLLM⟩ := by
  simp [executeShell, h, logAction]

/-- Witness for C2: `execute_shell("format c:")` is blocked, the backend
is not called, and the blocked entry is the only audit entry. -/
theorem critical_shell_blocked_witness :
    (executeShell okBackend ⟨{}, none⟩ "format c:" false 30 none).1.success = false ∧
    (executeShell okBackend ⟨{}, none⟩ "format c:" false 30 none).2.2 = [] ∧
    (executeShell okBackend ⟨{}, none⟩ "format c:" false 30 none).2.1.safety.auditLog =
      ringAppend ({} : SafetyState).auditLog
        ⟨ActionType.shellCommand.value, "format c:", RiskLevel.critical,
         "blocked", false⟩ :=
  critical_shell_blocked okBackend ⟨{}, none⟩ "format c:" false 30 none
    "Disk format" (by decide)

/-- C3: a command assessed High reaches the backend iff the confirmation
callback returns true on the command text; with no registered callback the
command is denied fail-closed (failure result, no backend call, a "denied"
audit entry). -/
theorem high_shell_confirmation (backend : Backend) (s : SafetyState)
    (command : String) (fromLLM : Bool) (timeout : Int) (cwd : Option String)
    (d : String)
    (h : assessCommand s command = (RiskLevel.high, d)) :
    ((executeShell backend ⟨s, none⟩ command fromLLM timeout cwd).1.success = false ∧
     (executeShell backend ⟨s, none⟩ command fromLLM timeout cwd).2.2 = [] ∧
     (executeShell backend ⟨s, none⟩ command fromLLM timeout cwd).2.1.safety.auditLog =
       ringAppend s.auditLog
         ⟨ActionType.shellCommand.value, command, RiskLevel.high, "denied", fromLLM⟩) ∧
    ∀ f : String → Bool,
      (executeShell backend ⟨s, some f⟩ command fromLLM timeout cwd).2.2 =
        (if f command then [BackendCall.runShell command] else []) ∧
      (f command = true →
        (executeShell backend ⟨s, some f⟩ command fromLLM timeout cwd).1 =
          backend.runShell command timeout cwd fromLLM) ∧
      (f command = false →
        (executeShell backend ⟨s, some f⟩ command fromLLM timeout cwd).1.success = false ∧
        (executeShell backend ⟨s, some f⟩ command fromLLM timeout cwd).2.1.safety.auditLog =
          ringAppend s.auditLog
            ⟨ActionType.shellCommand.value, command, RiskLevel.high,
             "denied", fromLLM⟩) := by
  constructor
  · simp [executeShell, h, requestConfirmation, logAction]
  · intro f
    by_cases hf : f command
    · simp [executeShell, h, requestConfirmation, hf, logAction]
    · simp [executeShell, h, requestConfirmation, hf, logAction]

/-- Witness for C3: `execute_shell("shutdown /s")` is High-risk; with no
callback it is denied without touching the backend, and with an
always-true callback the backend runs it. -/
theorem high_shell_confirmation_witness :
    ((executeShell okBackend ⟨{}, none⟩ "shutdown /s" false 30 none).1.success = false ∧
     (executeShell okBackend ⟨{}, none⟩ "shutdown /s" false 30 none).2.2 = [] ∧
     (executeShell okBackend ⟨{}, none⟩ "shutdown /s" false 30 none).2.1.safety.auditLog =
       ringAppend ({} : SafetyState).auditLog
         ⟨ActionType.shellCommand.value, "shutdown /s", RiskLevel.high,
          "denied", false⟩) ∧
    (executeShell okBackend ⟨{}, some (fun _ => true)⟩ "shutdown /s" false 30 none).2.2 =
      [BackendCall.runShell "shutdown /s"] := by
  have h := high_shell_confirmation okBackend {} "shutdown /s" false 30 none
    "System shutdown/restart" (by decide)
  refine ⟨h.1, ?_⟩
  have h2 := (h.2 (fun _ => true)).1
  simpa using h2

end Jarvis

namespace Jarvis

/-- C4 counterexample: seven consecutive `execute_shell("echo hello")`
calls on a fresh router each invoke the backend and succeed — the 6th and
7th calls are not blocked, whatever their timing, because `execute_shell`
reads no clock and never consults the rate limiter.  The claim requires
every call after the 5th within a 10-second window to fail with no backend
call. -/
theorem rate_limit_counterexample :
    (repeatShell okBackend "echo hello" 7 ⟨{}, none⟩).2.1 =
      List.replicate 7 (BackendCall.runShell "echo hello") ∧
    (repeatShell okBackend "echo hello" 7 ⟨{}, none⟩).2.2 =
      List.replicate 7 true := by decide

/-- C4 (amended): `SafetyEngine.should_block` does trip once five
commands fall inside the trailing 10-second window, but
`ActionRouter.execute_shell` never consults it: the timestamp window is
untouched by every call, and a command assessed below High always
reaches the backend exactly once regardless of prior submission rate. -/
theorem rate_limiter_unenforced :
    (∀ (s : SafetyState) (now : ℚ) (command : String),
      5 ≤ (s.timestamps.filter (fun t => now - t < 10)).length →
      (shouldBlock s now command).1 =
        (true, "Blocked: Rate limit exceeded (too many commands in quick succession)")) ∧
    (∀ (backend : Backend) (r : Router) (command : String) (fromLLM : Bool)
        (timeout : Int) (cwd : Option String),
      (executeShell backend r command fromLLM timeout cwd).2.1.safety.timestamps =
        r.safety.timestamps) ∧
    (∀ (backend : Backend) (r : Router) (command : String) (fromLLM : Bool)
        (timeout : Int) (cwd : Option String),
      (assessCommand r.safety command).1 ≠ RiskLevel.critical →
      (assessCommand r.safety command).1 ≠ RiskLevel.high →
      (executeShell backend r command fromLLM timeout cwd).2.2 =
        [BackendCall.runShell command]) := by
  refine ⟨?_, ?_, ?_⟩
  · intro s now command h
    simp [shouldBlock, h]
  · intro backend r command fromLLM timeout cwd
    by_cases h1 : (assessCommand r.safety command).1 = RiskLevel.critical
    · simp [executeShell, h1, logAction]
    · simp only [executeShell, h1, if_false, logAction, ringAppend]
      split <;> rfl
  · intro backend r command fromLLM timeout cwd h1 h2
    simp [executeShell, h1, h2]

/-- Witness for C4 (amended): with five timestamps inside the window,
`should_block` reports the rate-limit block, yet `execute_shell` still
sends the Low-risk command to the backend. -/
theorem rate_limiter_unenforced_witness :
    (shouldBlock ⟨[], [], [], [0, 0, 0, 0, 0]⟩ 0 "echo hello").1 =
      (true, "Blocked: Rate limit exceeded (too many commands in quick succession)") ∧
    (executeShell okBackend ⟨⟨[], [], [], [0, 0, 0, 0, 0]⟩, none⟩
        "echo hello" false 30 none).2.2 =
      [BackendCall.runShell "echo hello"] := by
  constructor
  · refine rate_limiter_unenforced.1 ⟨[], [], [], [0, 0, 0, 0, 0]⟩ 0 "echo hello" ?_
    norm_num [List.filter]
  · exact rate_limiter_unenforced.2.2 okBackend ⟨⟨[], [], [], [0, 0, 0, 0, 0]⟩, none⟩
      "echo hello" false 30 none (by decide) (by decide)

/-- Relating the strict-improvement fold of `assess_command` to the
first-of-maximum fold, for rule lists whose matching entries all outrank
the Low initialiser. -/
theorem riskFold_rel (pred : RiskPattern → Bool) (dflt : String) :
    ∀ (rules : List RiskPattern) (acc : RiskLevel × String)
      (macc : Option RiskPattern),
      (∀ rp ∈ rules, pred rp = true → 0 < riskRank rp.risk) →
      ((macc = none ∧ acc = (RiskLevel.low, dflt)) ∨
        (∃ b, macc = some b ∧ acc = (b.risk, b.description))) →
      (((rules.filter pred).foldl
          (fun a rp => match a with
            | none => some rp
            | some best =>
              if riskRank rp.risk > riskRank best.risk then some rp else a)
          macc = none ∧
        rules.foldl
          (fun a rp => if pred rp then
            (if riskRank rp.risk > riskRank a.1 then (rp.risk, rp.description)
             else a) else a) acc = (RiskLevel.low, dflt)) ∨
       (∃ b, (rules.filter pred).foldl
          (fun a rp => match a with
            | none => some rp
            | some best =>
              if riskRank rp.risk > riskRank best.risk then some rp else a)
          macc = some b ∧
        rules.foldl
          (fun a rp => if pred rp then
            (if riskRank rp.risk > riskRank a.1 then (rp.risk, rp.description)
             else a) else a) acc = (b.risk, b.description))) := by
  intro rules
  induction rules with
  | nil =>
    intro acc macc _ hrel
    simpa using hrel
  | cons rp rules ih =>
    intro acc macc hpos hrel
    have hpos' : ∀ x ∈ rules, pred x = true → 0 < riskRank x.risk :=
      fun x hx hpx => hpos x (List.mem_cons_of_mem _ hx) hpx
    by_cases hp : pred rp = true
    · rcases hrel with ⟨hm, ha⟩ | ⟨b, hm, ha⟩
      · subst hm; subst ha
        have hrank : riskRank rp.risk > riskRank (RiskLevel.low, dflt).1 := by
          simpa [riskRank] using hpos rp (by simp) hp
        simp only [List.foldl_cons, List.filter_cons, hp, if_true, if_pos hrank]
        exact ih (rp.risk, rp.description) (some rp) hpos' (Or.inr ⟨rp, rfl, rfl⟩)
      · subst hm; subst ha
        simp only [List.foldl_cons, List.filter_cons, hp, if_true]
        by_cases hcmp : riskRank rp.risk > riskRank b.risk
        · simp only [if_pos hcmp]
          exact ih (rp.risk, rp.description) (some rp) hpos' (Or.inr ⟨rp, rfl, rfl⟩)
        · simp only [if_neg hcmp]
          exact ih (b.risk, b.description) (some b) hpos' (Or.inr ⟨b, rfl, rfl⟩)
    · have hp' : pred rp = false := by simpa using hp
      simp only [List.foldl_cons, List.filter_cons, hp', if_false, Bool.false_eq_true]
      exact ih acc macc hpos' hrel

/-- C5: `SafetyEngine.assess_command` coincides with the spec's reference
definition: allowlist short-circuits to Low/"Allowlisted", then blocklist
substrings give Critical, then the highest-ranked matching entry of the
ordered risk table, else the Low default. -/
theorem assess_matches_spec (s : SafetyState) (command : String) :
    assessCommand s command = specAssess s command := by
  unfold assessCommand specAssess
  cases hfa : s.allowlist.find? (fun p => reSearch p.data (pyLower (pyStrip command.data))) with
  | some p =>
    have : s.allowlist.any (fun p => reSearch p.data (pyLower (pyStrip command.data))) = true := by
      rw [List.any_eq_true]
      have := List.find?_some hfa
      exact ⟨p, List.mem_of_find?_eq_some hfa, this⟩
    simp [hfa, this]
  | none =>
    have hany : s.allowlist.any (fun p => reSearch p.data (pyLower (pyStrip command.data))) = false := by
      rw [List.any_eq_false]
      intro x hx
      have := List.find?_eq_none.mp hfa x hx
      simpa using this
    simp only [hfa, hany, if_false, Bool.false_eq_true]
    cases hfb : s.blocklist.find? (fun b => containsSub (pyLower (pyStrip command.data)) (pyLower b.data)) with
    | some b => simp [hfb]
    | none =>
      simp only [hfb]
      have hpos : ∀ rp ∈ RISK_PATTERNS,
          (fun rp => reSearch rp.pattern.data command.data) rp = true →
          0 < riskRank rp.risk := by
        intro rp hrp _
        have : ∀ x ∈ RISK_PATTERNS, 0 < riskRank x.risk := by decide
        exact this rp hrp
      have hrel := riskFold_rel (fun rp => reSearch rp.pattern.data command.data)
        "No risk patterns matched" RISK_PATTERNS (RiskLevel.low, "No risk patterns matched")
        none hpos (Or.inl ⟨rfl, rfl⟩)
      unfold maxRankFirst
      rcases hrel with ⟨hm, hr⟩ | ⟨b, hm, hr⟩
      · rw [hr, hm]
      · rw [hr, hm]

end Jarvis

namespace Jarvis

/-- Every `execute_shell` call appends exactly one audit entry, whose
outcome is one of the four audit outcomes (helper shared by the audit
theorems). -/
theorem executeShell_audit (backend : Backend) (r : Router) (command : String)
    (fromLLM : Bool) (timeout : Int) (cwd : Option String) :
    ∃ e : AuditEntry,
      (executeShell backend r command fromLLM timeout cwd).2.1.safety.auditLog =
        ringAppend r.safety.auditLog e ∧
      (e.outcome = "success" ∨ e.outcome = "failure" ∨
       e.outcome = "blocked" ∨ e.outcome = "denied") := by
  by_cases h1 : (assessCommand r.safety command).1 = RiskLevel.critical
  · exact ⟨⟨ActionType.shellCommand.value, command, RiskLevel.critical,
      "blocked", fromLLM⟩, by simp [executeShell, h1, logAction], by simp⟩
  · by_cases h2 : (assessCommand r.safety command).1 = RiskLevel.high ∧
        ¬ requestConfirmation r command = true
    · exact ⟨⟨ActionType.shellCommand.value, command, RiskLevel.high,
        "denied", fromLLM⟩, by simp [executeShell, h1, h2, logAction], by simp⟩
    · have h2' : ¬((assessCommand r.safety command).1 = RiskLevel.high ∧
          requestConfirmation r command = false) := by simpa using h2
      refine ⟨⟨ActionType.shellCommand.value, String.mk (command.data.take 80),
        (assessCommand r.safety command).1,
        if (backend.runShell command timeout cwd fromLLM).success then "success"
        else "failure", fromLLM⟩, by simp [executeShell, h1, h2', logAction], ?_⟩
      by_cases hs : (backend.runShell command timeout cwd fromLLM).success <;>
        simp [hs]

/-- C1 counterexample: dispatching a ShellCommand request through
`execute_action` appends two audit entries (one from the inner
`execute_shell` gate and one from `execute_action` itself), and a request
whose ActionType has no handler appends none — the claim requires exactly
one in both situations. -/
theorem audit_single_entry_counterexample :
    (executeAction okBackend ⟨{}, none⟩
        ⟨ActionType.shellCommand, "echo hi", [], ""⟩).2.1.safety.auditLog.length = 2 ∧
    (executeAction okBackend ⟨{}, none⟩
        ⟨ActionType.fileRead, "notes.txt", [], ""⟩).2.1.safety.auditLog.length = 0 := by
  decide

/-- C1 (amended): per dispatch, `execute_shell` appends exactly one audit
entry (outcome among success/failure/blocked/denied); `execute_action`
appends exactly one entry (outcome success/failure) for the handled
non-shell types, two entries for a ShellCommand request (the inner gate's
and its own), and none for the unhandled file action types. -/
theorem audit_per_call (backend : Backend) (r : Router) (command : String)
    (fromLLM : Bool) (timeout : Int) (cwd : Option String) (req : ActionRequest) :
    (∃ e : AuditEntry,
      (executeShell backend r command fromLLM timeout cwd).2.1.safety.auditLog =
        ringAppend r.safety.auditLog e ∧
      (e.outcome = "success" ∨ e.outcome = "failure" ∨
       e.outcome = "blocked" ∨ e.outcome = "denied")) ∧
    (req.actionType = ActionType.launchApp ∨ req.actionType = ActionType.openUrl ∨
     req.actionType = ActionType.systemInfo ∨
     req.actionType = ActionType.notification →
      ∃ e : AuditEntry,
        (executeAction backend r req).2.1.safety.auditLog =
          ringAppend r.safety.auditLog e ∧
        (e.outcome = "success" ∨ e.outcome = "failure")) ∧
    (req.actionType = ActionType.shellCommand →
      ∃ e1 e2 : AuditEntry,
        (executeAction backend r req).2.1.safety.auditLog =
          ringAppend (ringAppend r.safety.auditLog e1) e2 ∧
        (e1.outcome = "success" ∨ e1.outcome = "failure" ∨
         e1.outcome = "blocked" ∨ e1.outcome = "denied") ∧
        (e2.outcome = "success" ∨ e2.outcome = "failure")) ∧
    (req.actionType = ActionType.fileRead ∨ req.actionType = ActionType.fileWrite ∨
     req.actionType = ActionType.fileList →
      (executeAction backend r req).2.1.safety.auditLog = r.safety.auditLog) := by
  obtain ⟨ty, tgt, args, raw⟩ := req
  refine ⟨executeShell_audit backend r command fromLLM timeout cwd, ?_, ?_, ?_⟩
  · intro hty
    simp only at hty
    have hout : ∀ res : ActionResult,
        (if res.success then "success" else "failure") = "success" ∨
        (if res.success then "success" else "failure") = "failure" := by
      intro res
      by_cases hs : res.success <;> simp [hs]
    rcases hty with h | h | h | h <;> subst h
    · exact ⟨⟨ActionType.launchApp.value, tgt,
        effectiveRisk (backend.launchApp tgt args).riskLevel
          (assessAction ActionType.launchApp),
        if (backend.launchApp tgt args).success then "success" else "failure",
        true⟩, by simp [executeAction, dispatchHandler, logAction], hout _⟩
    · exact ⟨⟨ActionType.openUrl.value, tgt,
        effectiveRisk (backend.openUrl tgt).riskLevel
          (assessAction ActionType.openUrl),
        if (backend.openUrl tgt).success then "success" else "failure",
        true⟩, by simp [executeAction, dispatchHandler, logAction], hout _⟩
    · exact ⟨⟨ActionType.systemInfo.value, tgt,
        effectiveRisk (handleSystemInfo backend).riskLevel
          (assessAction ActionType.systemInfo),
        if (handleSystemInfo backend).success then "success" else "failure",
        true⟩, by simp [executeAction, dispatchHandler, logAction], hout _⟩
    · exact ⟨⟨ActionType.notification.value, tgt,
        effectiveRisk (backend.notify tgt (args.headD "")).riskLevel
          (assessAction ActionType.notification),
        if (backend.notify tgt (args.headD "")).success then "success"
        else "failure", true⟩,
        by simp [executeAction, dispatchHandler, logAction], hout _⟩
  · intro h
    simp only at h
    subst h
    obtain ⟨e1, he1, hd1⟩ := executeShell_audit backend r tgt true 30 none
    refine ⟨e1, ⟨ActionType.shellCommand.value, tgt,
      effectiveRisk (executeShell backend r tgt true 30 none).1.toAction.riskLevel
        (assessAction ActionType.shellCommand),
      if (executeShell backend r tgt true 30 none).1.toAction.success then "success"
      else "failure", true⟩, ?_, hd1, ?_⟩
    · simp only [executeAction, dispatchHandler, logAction]
      simp [he1]
    · by_cases hs : (executeShell backend r tgt true 30 none).1.toAction.success <;>
        simp [hs]
  · intro hty
    simp only at hty
    rcases hty with h | h | h <;> subst h <;>
      simp [executeAction, dispatchHandler]

/-- Witness for C1 (amended): the ShellCommand-via-`execute_action` case
at a concrete request on a fresh router. -/
theorem audit_per_call_witness :
    ∃ e1 e2 : AuditEntry,
      (executeAction okBackend ⟨{}, none⟩
          ⟨ActionType.shellCommand, "echo hi", [], ""⟩).2.1.safety.auditLog =
        ringAppend (ringAppend ({} : SafetyState).auditLog e1) e2 ∧
      (e1.outcome = "success" ∨ e1.outcome = "failure" ∨
       e1.outcome = "blocked" ∨ e1.outcome = "denied") ∧
      (e2.outcome = "success" ∨ e2.outcome = "failure") :=
  (audit_per_call okBackend ⟨{}, none⟩ "unused" false 30 none
    ⟨ActionType.shellCommand, "echo hi", [], ""⟩).2.2.1 rfl

end Jarvis

namespace Jarvis

/-! ### Substring-scan lemmas for the filter proofs -/

theorem headEq_length : ∀ {p l : List Char}, headEq p l = true → p.length ≤ l.length := by
  intro p
  induction p with
  | nil => intro l _; simp
  | cons a ps ih =>
    intro l h
    cases l with
    | nil => simp [headEq] at h
    | cons c cs =>
      simp only [headEq, Bool.and_eq_true] at h
      simpa [Nat.succ_le_succ_iff] using ih h.2

theorem headEq_take : ∀ {p : List Char} {l : List Char} {k : Nat},
    headEq p (l.take k) = true → headEq p l = true := by
  intro p
  induction p with
  | nil => intro l k _; rfl
  | cons a ps ih =>
    intro l k h
    cases l with
    | nil => simpa using h
    | cons c cs =>
      cases k with
      | zero => simp [headEq] at h
      | succ k =>
        simp only [List.take_succ_cons, headEq, Bool.and_eq_true] at h ⊢
        exact ⟨h.1, ih h.2⟩

theorem headEq_mem : ∀ {p l : List Char}, headEq p l = true → ∀ c ∈ p, c ∈ l := by
  intro p
  induction p with
  | nil => intro l _ c hc; simp at hc
  | cons a ps ih =>
    intro l h c hc
    cases l with
    | nil => simp [headEq] at h
    | cons b bs =>
      simp only [headEq, Bool.and_eq_true, decide_eq_true_eq] at h
      rcases List.mem_cons.mp hc with rfl | hc
      · simp [h.1]
      · exact List.mem_cons_of_mem _ (ih h.2 c hc)

theorem firstIdx_headEq : ∀ {l p : List Char} {i : Nat},
    firstIdx l p = some i → headEq p (l.drop i) = true := by
  intro l
  induction l with
  | nil =>
    intro p i h
    unfold firstIdx at h
    by_cases hh : headEq p [] = true
    · simp [hh] at h; subst h; simpa using hh
    · simp [hh] at h
  | cons c t ih =>
    intro p i h
    unfold firstIdx at h
    by_cases hh : headEq p (c :: t) = true
    · simp [hh] at h; subst h; simpa using hh
    · simp [hh] at h
      obtain ⟨j, hj, rfl⟩ := h
      simpa using ih hj

theorem headEq_firstIdx_le : ∀ {l p : List Char} {i : Nat},
    headEq p (l.drop i) = true → ∃ j ≤ i, firstIdx l p = some j := by
  intro l
  induction l with
  | nil =>
    intro p i h
    have h0 : headEq p [] = true := by simpa using h
    exact ⟨0, Nat.zero_le i, by simp [firstIdx, h0]⟩
  | cons c t ih =>
    intro p i h
    by_cases hh : headEq p (c :: t) = true
    · exact ⟨0, Nat.zero_le i, by simp [firstIdx, hh]⟩
    · cases i with
      | zero => simp at h; exact absurd h hh
      | succ i =>
        simp only [List.drop_succ_cons] at h
        obtain ⟨j, hj, hfi⟩ := ih h
        exact ⟨j + 1, Nat.succ_le_succ hj, by simp [firstIdx, hh, hfi]⟩

theorem firstIdx_le_length : ∀ {l p : List Char} {i : Nat},
    firstIdx l p = some i → i ≤ l.length := by
  intro l
  induction l with
  | nil =>
    intro p i h
    unfold firstIdx at h
    by_cases hh : headEq p [] = true
    · simp [hh] at h; simp [h]
    · simp [hh] at h
  | cons c t ih =>
    intro p i h
    unfold firstIdx at h
    by_cases hh : headEq p (c :: t) = true
    · simp [hh] at h; omega
    · simp [hh] at h
      obtain ⟨j, hj, rfl⟩ := h
      simpa [Nat.succ_le_succ_iff] using ih hj

/-- While the whole span is still incomplete, no proper prefix of
`body ++ close` contains the closing marker. -/
theorem firstIdx_take_none {body close : List Char}
    (hb : firstIdx (body ++ close) close = some body.length) :
    ∀ m, m < body.length + close.length →
      firstIdx ((body ++ close).take m) close = none := by
  intro m hm
  cases hfi : firstIdx ((body ++ close).take m) close with
  | none => rfl
  | some j =>
    exfalso
    have hj_le : j ≤ ((body ++ close).take m).length := firstIdx_le_length hfi
    have hjm : j ≤ m := le_trans hj_le (List.length_take_le m _)
    have h1 : headEq close (((body ++ close).take m).drop j) = true :=
      firstIdx_headEq hfi
    have hlen : close.length ≤ (((body ++ close).take m).drop j).length :=
      headEq_length h1
    have hlen2 : (((body ++ close).take m).drop j).length ≤ m - j := by
      rw [List.length_drop]
      have : ((body ++ close).take m).length ≤ m := List.length_take_le m _
      omega
    rw [List.drop_take] at h1
    have h2 : headEq close ((body ++ close).drop j) = true := headEq_take h1
    obtain ⟨j', hj', hfi'⟩ := headEq_firstIdx_le h2
    rw [hb] at hfi'
    have hbl : body.length = j' := by
      have := Option.some.inj hfi'.symm
      omega
    omega

end Jarvis

namespace Jarvis

/-! ### Feed-stepping lemmas -/

theorem feedList_acc (cs : List Char) : ∀ (st : FilterState) (d : List Char),
    cs.foldl (fun acc c =>
      let out := feedChar acc.2 c
      (acc.1 ++ out.1, out.2)) (d, st) =
      (d ++ (feedList st cs).1, (feedList st cs).2) := by
  induction cs with
  | nil => intro st d; simp [feedList]
  | cons c cs ih =>
    intro st d
    simp only [feedList, List.foldl_cons]
    rw [ih, ih]
    simp

theorem feedList_append (st : FilterState) (a b : List Char) :
    feedList st (a ++ b) =
      ((feedList st a).1 ++ (feedList (feedList st a).2 b).1,
       (feedList (feedList st a).2 b).2) := by
  simp only [feedList, List.foldl_append]
  have h := feedList_acc b (feedList st a).2 (feedList st a).1
  simpa [feedList] using h

theorem feedChar_scan_plain (st : FilterState) (c : Char) (htag : st.tag? = none)
    (hbuf : st.buf = []) (hc : c ≠ '[') :
    feedChar st c = ([c], st) := by
  obtain ⟨buf, tag, tagBuf, sh, ac⟩ := st
  simp only at htag hbuf
  subst htag; subst hbuf
  simp [feedChar, TAGS, containsSub, firstIdx, headEq, leadsList, List.find?, hc]

theorem feedList_prose (s : List Char) (hs : ∀ c ∈ s, c ≠ '[') :
    ∀ st : FilterState, st.tag? = none → st.buf = [] →
    feedList st s = (s, st) := by
  induction s with
  | nil => intro st _ _; simp [feedList]
  | cons c cs ih =>
    intro st htag hbuf
    have hstep := feedChar_scan_plain st c htag hbuf (hs c (by simp))
    have hrest := ih (fun x hx => hs x (List.mem_cons_of_mem _ hx)) st htag hbuf
    have : (c :: cs) = [c] ++ cs := rfl
    rw [this, feedList_append]
    have hone : feedList st [c] = ([c], st) := by
      simp [feedList, hstep]
    rw [hone]
    simp [hrest]

theorem feed_open (t : String × String) (ht : t ∈ TAGS) :
    ∀ st : FilterState, st.tag? = none → st.buf = [] →
    feedList st t.1.data = ([], { st with tag? := some t }) := by
  have ht' : t = ("[SHELL]", "[/SHELL]") ∨ t = ("[ACTION]", "[/ACTION]") := by
    simpa [TAGS] using ht
  rintro ⟨buf, tag, tagBuf, sh, ac⟩ htag hbuf
  simp only at htag hbuf
  subst htag; subst hbuf
  rcases ht' with rfl | rfl <;>
    simp [feedList, feedChar, TAGS, containsSub, firstIdx, headEq, leadsList,
      show "[SHELL]".data = ['[', 'S', 'H', 'E', 'L', 'L', ']'] from rfl,
      show "[ACTION]".data = ['[', 'A', 'C', 'T', 'I', 'O', 'N', ']'] from rfl]

theorem feedChar_inTag_noClose (st : FilterState) (c : Char) (t : String × String)
    (htag : st.tag? = some t)
    (hnc : firstIdx (st.tagBuf ++ [c]) t.2.data = none) :
    feedChar st c = ([], { st with tagBuf := st.tagBuf ++ [c] }) := by
  simp [feedChar, htag, hnc]

theorem feedList_inTag (t : String × String) :
    ∀ (cs : List Char) (st : FilterState), st.tag? = some t →
    (∀ k, 1 ≤ k → k ≤ cs.length →
      firstIdx (st.tagBuf ++ cs.take k) t.2.data = none) →
    feedList st cs = ([], { st with tagBuf := st.tagBuf ++ cs }) := by
  intro cs
  induction cs with
  | nil =>
    intro st htag _
    obtain ⟨buf, tag, tagBuf, sh, ac⟩ := st
    simp [feedList]
  | cons c cs ih =>
    intro st htag hnc
    have h1 : firstIdx (st.tagBuf ++ [c]) t.2.data = none := by
      have := hnc 1 (le_refl 1) (by simp)
      simpa using this
    have hstep := feedChar_inTag_noClose st c t htag h1
    have hrest := ih { st with tagBuf := st.tagBuf ++ [c] } (by simpa using htag) ?_
    · have : (c :: cs) = [c] ++ cs := rfl
      rw [this, feedList_append]
      have hone : feedList st [c] = ([], { st with tagBuf := st.tagBuf ++ [c] }) := by
        simp [feedList, hstep]
      rw [hone]
      simp only [hrest]
      simp [List.append_assoc]
    · intro k hk1 hk2
      have := hnc (k + 1) (by omega) (by simpa using Nat.succ_le_succ hk2)
      simpa [List.append_assoc] using this

end Jarvis

namespace Jarvis

/-- Feeding one complete, well-formed tag span from a clean in-tag state:
nothing is displayed, the filter returns to scanning with an empty tag
buffer, and the stripped body (when non-empty) lands in the extraction
list of the span's kind. -/
theorem feed_span (t : String × String) (ht : t ∈ TAGS) (body : List Char)
    (hb : firstIdx (body ++ t.2.data) t.2.data = some body.length) :
    ∀ st : FilterState, st.tag? = some t → st.tagBuf = [] →
    feedList st (body ++ t.2.data) =
      ([], { st with
              tag? := none, tagBuf := [],
              shellCommands := st.shellCommands ++
                (if t.1 = "[SHELL]" ∧ pyStrip body ≠ [] then [pyStrip body] else []),
              actionCommands := st.actionCommands ++
                (if t.1 = "[ACTION]" ∧ pyStrip body ≠ [] then [pyStrip body] else []) }) := by
  rintro ⟨buf, tag, tagBuf0, sh, ac⟩ htag htb
  simp only at htag htb
  subst htag; subst htb
  have ht' : t = ("[SHELL]", "[/SHELL]") ∨ t = ("[ACTION]", "[/ACTION]") := by
    simpa [TAGS] using ht
  have hne : t.2.data ≠ [] := by rcases ht' with rfl | rfl <;> simp
  have hclose_pos : 0 < t.2.data.length := List.length_pos.mpr hne
  have hsplit : body ++ t.2.data =
      (body ++ t.2.data.dropLast) ++ [t.2.data.getLast hne] := by
    rw [List.append_assoc]
    congr 1
    exact (List.dropLast_append_getLast hne).symm
  have hlen : (body ++ t.2.data.dropLast).length =
      body.length + t.2.data.length - 1 := by
    have hdl : (t.2.data.dropLast).length = t.2.data.length - 1 :=
      List.length_dropLast _
    simp only [List.length_append, hdl]
    omega
  -- Step 1: the body and all but the last character of the closing marker
  -- accumulate silently in the tag buffer.
  have hpre : feedList ⟨buf, some t, [], sh, ac⟩ (body ++ t.2.data.dropLast) =
      ([], ⟨buf, some t, body ++ t.2.data.dropLast, sh, ac⟩) := by
    have h := feedList_inTag t (body ++ t.2.data.dropLast)
      ⟨buf, some t, [], sh, ac⟩ rfl ?_
    · simpa using h
    · intro k hk1 hk2
      have htake : (body ++ t.2.data.dropLast).take k = (body ++ t.2.data).take k := by
        conv_rhs => rw [hsplit]
        rw [List.take_append_of_le_length hk2]
      simp only [List.nil_append]
      rw [htake]
      refine firstIdx_take_none hb k ?_
      omega
  -- Step 2: the final character completes the closing marker.
  have hlast : feedChar ⟨buf, some t, body ++ t.2.data.dropLast, sh, ac⟩
      (t.2.data.getLast hne) =
      ([], ⟨buf, none, [],
        sh ++ (if t.1 = "[SHELL]" ∧ pyStrip body ≠ [] then [pyStrip body] else []),
        ac ++ (if t.1 = "[ACTION]" ∧ pyStrip body ≠ [] then [pyStrip body] else [])⟩) := by
    have htagBuf : (body ++ t.2.data.dropLast) ++ [t.2.data.getLast hne] =
        body ++ t.2.data := hsplit.symm
    have htake : (body ++ t.2.data).take body.length = body := List.take_left _ _
    have hdrop : (body ++ t.2.data).drop (body.length + t.2.data.length) = [] := by
      have hl : body.length + t.2.data.length = (body ++ t.2.data).length := by
        simp
      rw [hl, List.drop_length]
    simp only [feedChar, htagBuf, hb, htake, hdrop]
    rcases ht' with rfl | rfl <;>
      by_cases hstrip : pyStrip body = [] <;>
        simp [hstrip]
  rw [hsplit, feedList_append, hpre]
  have hone : feedList ⟨buf, some t, body ++ t.2.data.dropLast, sh, ac⟩
      [t.2.data.getLast hne] =
      ([], ⟨buf, none, [],
        sh ++ (if t.1 = "[SHELL]" ∧ pyStrip body ≠ [] then [pyStrip body] else []),
        ac ++ (if t.1 = "[ACTION]" ∧ pyStrip body ≠ [] then [pyStrip body] else [])⟩) := by
    simp [feedList, hlast]
  simp [hone]

end Jarvis

namespace Jarvis

/-- Master lemma: feeding a well-formed stream (alternating bracket-free
prose and complete tag spans) from a clean scanning state displays exactly
the prose and extracts exactly the stripped non-empty bodies, per kind, in
order. -/
theorem feed_items (items : List StreamItem)
    (hok : ∀ it ∈ items, itemOK it = true) :
    ∀ st : FilterState, st.tag? = none → st.buf = [] → st.tagBuf = [] →
    feedList st (renderAll items) =
      (expDisplay items,
       { st with shellCommands := st.shellCommands ++ expShell items,
                 actionCommands := st.actionCommands ++ expAction items }) := by
  induction items with
  | nil =>
    intro st h1 h2 h3
    obtain ⟨buf, tag, tagBuf, sh, ac⟩ := st
    simp [renderAll, expDisplay, expShell, expAction, feedList]
  | cons it items ih =>
    rintro ⟨buf, tag, tagBuf, sh, ac⟩ h1 h2 h3
    simp only at h1 h2 h3
    subst h1; subst h2; subst h3
    have hit := hok it (by simp)
    have hrest := fun x hx => hok x (List.mem_cons_of_mem _ hx)
    have hrender : renderAll (it :: items) = renderItem it ++ renderAll items := by
      simp [renderAll]
    rw [hrender, feedList_append]
    cases it with
    | prose s =>
      have hs : ∀ c ∈ s, c ≠ '[' := by
        intro c hc
        have hthis := hit
        simp only [itemOK, List.all_eq_true, decide_eq_true_eq] at hthis
        exact hthis c hc
      rw [show renderItem (StreamItem.prose s) = s from rfl]
      rw [feedList_prose s hs _ rfl rfl]
      rw [ih hrest _ rfl rfl rfl]
      simp [expDisplay, expShell, expAction]
    | span t body =>
      have hok' : t ∈ TAGS ∧
          firstIdx (body ++ t.2.data) t.2.data = some body.length := by
        simpa [itemOK] using hit
      rw [show renderItem (StreamItem.span t body) =
            t.1.data ++ (body ++ t.2.data) from by simp [renderItem]]
      rw [feedList_append]
      rw [feed_open t hok'.1 _ rfl rfl]
      rw [feed_span t hok'.1 body hok'.2 _ rfl rfl]
      rw [ih hrest _ rfl rfl rfl]
      by_cases hc1 : t.1 = "[SHELL]" ∧ pyStrip body ≠ [] <;>
        by_cases hc2 : t.1 = "[ACTION]" ∧ pyStrip body ≠ [] <;>
          simp [expDisplay, expShell, expAction, hc1, hc2, List.append_assoc]

theorem streamOut_fold (frags : List (List Char)) :
    ∀ (st : FilterState) (d : List Char),
    frags.foldl (fun acc f =>
      let o := feedList acc.2 f
      (acc.1 ++ o.1, o.2)) (d, st) =
      (d ++ (feedList st frags.flatten).1, (feedList st frags.flatten).2) := by
  induction frags with
  | nil => intro st d; simp [feedList]
  | cons f fs ih =>
    intro st d
    simp only [List.foldl_cons, List.flatten_cons]
    rw [ih, feedList_append]
    simp

/-- Fragmentation invariance: a stream of fragments behaves exactly as
the single fragment equal to their concatenation. -/
theorem streamOut_flatten (frags : List (List Char)) :
    streamOut frags = streamOut [frags.flatten] := by
  unfold streamOut
  rw [streamOut_fold, streamOut_fold]
  simp

theorem containsSub_all_mem {l p : List Char} (h : containsSub l p = true) :
    ∀ c ∈ p, c ∈ l := by
  unfold containsSub at h
  obtain ⟨i, hi⟩ := Option.isSome_iff_exists.mp h
  have h1 := firstIdx_headEq hi
  intro c hc
  exact List.mem_of_mem_drop (headEq_mem h1 c hc)

theorem expDisplay_no_bracket (items : List StreamItem)
    (hok : ∀ it ∈ items, itemOK it = true) :
    ∀ c ∈ expDisplay items, c ≠ '[' := by
  intro c hc
  unfold expDisplay at hc
  rw [List.mem_flatten] at hc
  obtain ⟨l, hl, hcl⟩ := hc
  rw [List.mem_map] at hl
  obtain ⟨it, hit, rfl⟩ := hl
  cases it with
  | prose s =>
    have hthis := hok _ hit
    simp only [itemOK, List.all_eq_true, decide_eq_true_eq] at hthis
    exact hthis c hcl
  | span t body => simp at hcl

end Jarvis

namespace Jarvis

/-- Shared: outputs of a whole stream (feeds plus flush) on a well-formed
fragment sequence. -/
theorem streamOut_wf (frags : List (List Char)) (items : List StreamItem)
    (hj : frags.flatten = renderAll items)
    (hok : ∀ it ∈ items, itemOK it = true) :
    (streamOut frags).1 = expDisplay items ∧
    (streamOut frags).2.shellCommands = expShell items ∧
    (streamOut frags).2.actionCommands = expAction items := by
  rw [streamOut_flatten, hj]
  have hfeed := feed_items items hok initFilter rfl rfl rfl
  unfold streamOut
  rw [streamOut_fold]
  simp only [List.flatten_cons, List.flatten_nil, List.append_nil]
  rw [hfeed]
  simp [flushOut, initFilter]

/-- C6 counterexample: the input `"[[SHELL]x[/SHELL]"` is a `"["` followed
by a complete `[SHELL]x[/SHELL]` span, yet the filter displays the whole
input verbatim and extracts nothing — the claim requires display `"["`
and `shell_commands == ["x"]`. -/
theorem span_removal_counterexample :
    "[[SHELL]x[/SHELL]".data =
      "[".data ++ "[SHELL]".data ++ "x".data ++ "[/SHELL]".data ∧
    (streamOut ["[[SHELL]x[/SHELL]".data]).1 = "[[SHELL]x[/SHELL]".data ∧
    (streamOut ["[[SHELL]x[/SHELL]".data]).1 ≠ "[".data ∧
    (streamOut ["[[SHELL]x[/SHELL]".data]).2.shellCommands = [] := by decide

/-- C6 (amended): the filter's outputs are invariant under arbitrary
fragmentation of the stream; on every well-formed stream (bracket-free
prose alternating with complete tag spans) the concatenated display is
exactly the stream with the spans removed and the extraction lists are the
stripped non-empty bodies per kind in order; in particular
`"A [SHELL]cmd[/SHELL] B"`, split at any fragment boundaries, displays
`"A  B"` and extracts `["cmd"]`. -/
theorem tag_filter_stream :
    (∀ frags : List (List Char), streamOut frags = streamOut [frags.flatten]) ∧
    (∀ (frags : List (List Char)) (items : List StreamItem),
      frags.flatten = renderAll items →
      (∀ it ∈ items, itemOK it = true) →
      (streamOut frags).1 = expDisplay items ∧
      (streamOut frags).2.shellCommands = expShell items ∧
      (streamOut frags).2.actionCommands = expAction items) ∧
    (∀ frags : List (List Char),
      frags.flatten = "A [SHELL]cmd[/SHELL] B".data →
      (streamOut frags).1 = "A  B".data ∧
      (streamOut frags).2.shellCommands = ["cmd".data] ∧
      (streamOut frags).2.actionCommands = []) := by
  refine ⟨streamOut_flatten, fun frags items hj hok => streamOut_wf frags items hj hok, ?_⟩
  intro frags hj
  rw [streamOut_flatten frags, hj]
  refine ⟨by decide, by decide, by decide⟩

/-- Witness for C6 (amended): the scenario split mid-marker. -/
theorem tag_filter_stream_witness :
    (streamOut ["A [SH".data, "ELL]cmd[/SHELL] B".data]).1 = "A  B".data ∧
    (streamOut ["A [SH".data, "ELL]cmd[/SHELL] B".data]).2.shellCommands =
      ["cmd".data] ∧
    (streamOut ["A [SH".data, "ELL]cmd[/SHELL] B".data]).2.actionCommands = [] :=
  tag_filter_stream.2.2 ["A [SH".data, "ELL]cmd[/SHELL] B".data] (by decide)

/-- C7 counterexample: a closing marker with no opener passes through to
the display channel in full, so the display does contain a complete
marker. -/
theorem marker_emitted_counterexample :
    (streamOut ["[/SHELL]".data]).1 = "[/SHELL]".data ∧
    containsSub (streamOut ["[/SHELL]".data]).1 "[/SHELL]".data = true := by decide

/-- C7 (amended): on every well-formed stream — bracket-free prose
alternating with complete tag spans — no complete opening or closing
marker ever appears in the concatenated display output.  (On arbitrary
streams this fails: an unmatched closing marker, or an opening marker
directly preceded by a stray partial-marker prefix, reaches the display.) -/
theorem no_marker_in_display (frags : List (List Char)) (items : List StreamItem)
    (hj : frags.flatten = renderAll items)
    (hok : ∀ it ∈ items, itemOK it = true) :
    ∀ m ∈ allMarkers, containsSub (streamOut frags).1 m = false := by
  intro m hm
  have hbr := expDisplay_no_bracket items hok
  rw [(streamOut_wf frags items hj hok).1]
  cases hcs : containsSub (expDisplay items) m with
  | false => rfl
  | true =>
    exfalso
    have hmem := containsSub_all_mem hcs
    have hbrm : '[' ∈ m := by
      have hm' : m = "[SHELL]".data ∨ m = "[/SHELL]".data ∨
          m = "[ACTION]".data ∨ m = "[/ACTION]".data := by
        simpa [allMarkers] using hm
      rcases hm' with rfl | rfl | rfl | rfl <;> decide
    exact hbr '[' (hmem '[' hbrm) rfl

/-- Witness for C7 (amended): the scenario stream displays `"A  B"`,
which contains none of the four markers. -/
theorem no_marker_in_display_witness :
    containsSub (streamOut ["A [SHELL]cmd[/SHELL] B".data]).1 "[SHELL]".data = false ∧
    containsSub (streamOut ["A [SHELL]cmd[/SHELL] B".data]).1 "[/SHELL]".data = false ∧
    containsSub (streamOut ["A [SHELL]cmd[/SHELL] B".data]).1 "[ACTION]".data = false ∧
    containsSub (streamOut ["A [SHELL]cmd[/SHELL] B".data]).1 "[/ACTION]".data = false :=
  ⟨no_marker_in_display ["A [SHELL]cmd[/SHELL] B".data]
      [StreamItem.prose "A ".data,
       StreamItem.span ("[SHELL]", "[/SHELL]") "cmd".data,
       StreamItem.prose " B".data] (by decide) (by decide) _ (by decide),
   no_marker_in_display ["A [SHELL]cmd[/SHELL] B".data]
      [StreamItem.prose "A ".data,
       StreamItem.span ("[SHELL]", "[/SHELL]") "cmd".data,
       StreamItem.prose " B".data] (by decide) (by decide) _ (by decide),
   no_marker_in_display ["A [SHELL]cmd[/SHELL] B".data]
      [StreamItem.prose "A ".data,
       StreamItem.span ("[SHELL]", "[/SHELL]") "cmd".data,
       StreamItem.prose " B".data] (by decide) (by decide) _ (by decide),
   no_marker_in_display ["A [SHELL]cmd[/SHELL] B".data]
      [StreamItem.prose "A ".data,
       StreamItem.span ("[SHELL]", "[/SHELL]") "cmd".data,
       StreamItem.prose " B".data] (by decide) (by decide) _ (by decide)⟩

/-- C8: `flush` discards the content of an unterminated tag (it reaches
neither the display nor any extraction list) while buffered Scanning text
is emitted as display; feeding `"A [SHELL]cmd"` yields display `"A "` and
empty extraction lists. -/
theorem flush_discards_unterminated :
    (∀ st : FilterState,
      (flushOut st).1 = (if st.tag?.isSome then [] else st.buf) ∧
      (flushOut st).2.shellCommands = st.shellCommands ∧
      (flushOut st).2.actionCommands = st.actionCommands) ∧
    (streamOut ["A [SHELL]cmd".data]).1 = "A ".data ∧
    (streamOut ["A [SHELL]cmd".data]).2.shellCommands = [] ∧
    (streamOut ["A [SHELL]cmd".data]).2.actionCommands = [] := by
  refine ⟨?_, by decide, by decide, by decide⟩
  intro st
  cases h : st.tag? <;> simp [flushOut, h]

end Jarvis

namespace Jarvis

theorem find?_replace (k v : String) : ∀ (m : List (String × String)),
    m.any (fun p => p.1 = k) = true →
    (m.map (fun p => if p.1 = k then (k, v) else p)).find?
      (fun p => p.1 = k) = some (k, v) := by
  intro m
  induction m with
  | nil => intro h; simp at h
  | cons p m ih =>
    intro hany
    by_cases hk : p.1 = k
    · simp [List.find?, hk]
    · have hany' : m.any (fun p => p.1 = k) = true := by
        simpa [hk] using hany
      simp [List.find?, hk, ih hany']

theorem find?_append_right (m : List (String × String)) (k v : String)
    (h : m.find? (fun p => p.1 = k) = none) :
    (m ++ [(k, v)]).find? (fun p => p.1 = k) = some (k, v) := by
  induction m with
  | nil => simp [List.find?]
  | cons p m ih =>
    rw [List.find?_eq_none] at h
    have hp : ¬ ((fun q : String × String => decide (q.1 = k)) p = true) :=
      h p (by simp)
    have hm : m.find? (fun p => p.1 = k) = none := by
      rw [List.find?_eq_none]
      exact fun x hx => h x (List.mem_cons_of_mem _ hx)
    have hp' : decide (p.1 = k) = false := by simpa using hp
    simp only [List.cons_append, List.find?, hp']
    exact ih hm

/-- Python dict assignment semantics: after `m[k] = v`, looking up `k`
yields `v` — silently, whether or not `k` was already bound. -/
theorem dictGet_dictInsert (m : List (String × String)) (k v : String) :
    dictGet (dictInsert m k v) k = some v := by
  unfold dictGet dictInsert
  by_cases hany : m.any (fun p => p.1 = k) = true
  · rw [if_pos hany, find?_replace k v m hany]
    rfl
  · rw [if_neg hany]
    have hnone : m.find? (fun p => p.1 = k) = none := by
      rw [List.find?_eq_none]
      intro x hx hpx
      exact hany (List.any_eq_true.mpr ⟨x, hx, hpx⟩)
    rw [find?_append_right m k v hnone]
    rfl

/-- C9: `AppRegistry.resolve` lower-cases and strips the query and tries
the exact alias table before the fuzzy matcher — an exact hit returns the
mapped entry with the fuzzy matcher never consulted; on the sample
registry a 1-character misspelling of the alias `"chrome"` resolves to the
same entry via the best fuzzy match over the 0.7 cutoff, and an unrelated
query resolves to nothing. -/
theorem resolve_exact_then_fuzzy :
    (∀ (reg : AppRegistry) (query canonical : String),
      dictGet reg.aliasMap (pyStripLowerStr query) = some canonical →
      resolve reg query = dictGetEntry reg.apps canonical ∧
      resolve reg query = resolveExactOnly reg query) ∧
    ((resolve sampleRegistry "chrme").isSome = true ∧
     resolve sampleRegistry "chrme" = resolve sampleRegistry "chrome") ∧
    resolve sampleRegistry "qqqq" = none := by
  refine ⟨?_, ⟨by decide, by decide⟩, by decide⟩
  intro reg query canonical h
  constructor <;> simp [resolve, resolveExactOnly, h]

/-- Witness for C9: the exact, case-insensitive hit `" Chrome "`. -/
theorem resolve_exact_then_fuzzy_witness :
    resolve sampleRegistry " Chrome " = dictGetEntry sampleRegistry.apps "chrome" ∧
    resolve sampleRegistry " Chrome " = resolveExactOnly sampleRegistry " Chrome " :=
  resolve_exact_then_fuzzy.1 sampleRegistry " Chrome " "chrome" (by decide)

/-- C10 counterexample: loading a config in which `app1` and `app2` both
register the alias `"shared"` does not fail — the later registration
silently overwrites the earlier binding in place, and `"shared"` resolves
to `app2`. -/
theorem registry_collision_counterexample :
    (loadRegistry collideData).aliasMap =
      [("app1", "app1"), ("shared", "app2"), ("app2", "app2")] ∧
    (resolve (loadRegistry collideData) "shared").map (fun e => e.name) =
      some "app2" ∧
    (resolve (loadRegistry collideData) "shared").map (fun e => e.name) ≠
      some "app1" := by decide

/-- C10 (amended): `_load` never fails on a key collision: alias-map
assignment has Python dict semantics (the last registration of a
lower-cased key silently wins), so colliding aliases overwrite rather
than error, as the `collideData` registry shows concretely. -/
theorem registry_collision_overwrites :
    (∀ (m : List (String × String)) (k v : String),
      dictGet (dictInsert m k v) k = some v) ∧
    (loadRegistry collideData).apps.length = 2 ∧
    (resolve (loadRegistry collideData) "shared").map (fun e => e.name) =
      some "app2" :=
  ⟨dictGet_dictInsert, by decide, by decide⟩

end Jarvis
